import Mathlib

/-!
# OneWorldMultipleWindows: per-window camera projection and animated box scene

A shallow embedding of `OneWorldMultipleWindowsApp.cpp`.

Conventions of the embedding:

* The arithmetic of the source is embedded in two readings.  In the exact reading every
  `float`/`double` operation is the exact operation of a linearly ordered field `K`
  (instantiated at `ℚ` for evaluation and at `ℝ` where sine and cosine are needed), and
  casts between `int`, `float` and `double` are identities.  In the binary32 reading
  (definitions with the suffix `32`) the camera arithmetic of `draw()` is evaluated as the
  program evaluates it: each operation returns the exact result rounded to the nearest
  binary32 value.  Statements about the exact reading say so.
* `math<float>::sin` and `math<float>::cos` are passed in as functions `sin cos : K → K`.
* The global random generator `Rand` is an explicit state `G` together with its two
  operations, passed in as a `RandOps`.
* `gl::` calls are recorded as data: every `draw` returns the camera handed to
  `gl::setMatrices` and the list of cubes handed to `gl::drawCube`.
-/

namespace OneWorld

/-- Two-component vector (`Vec2f`). -/
structure Vec2f (K : Type) where
  x : K
  y : K
deriving DecidableEq, Repr

/-- Three-component vector (`Vec3f`). -/
structure Vec3f (K : Type) where
  x : K
  y : K
  z : K
deriving DecidableEq, Repr

/-- Component-wise sum, `Vec2f::operator+`. -/
def Vec2f.add {K : Type} [Add K] (a b : Vec2f K) : Vec2f K := ⟨a.x + b.x, a.y + b.y⟩

/-- Scaling by a scalar on the right, `Vec2f::operator*(float)`. -/
def Vec2f.scale {K : Type} [Mul K] (a : Vec2f K) (k : K) : Vec2f K := ⟨a.x * k, a.y * k⟩

/-- Component-wise sum, `Vec3f::operator+`. -/
def Vec3f.add {K : Type} [Add K] (a b : Vec3f K) : Vec3f K :=
  ⟨a.x + b.x, a.y + b.y, a.z + b.z⟩

/-- A colour as constructed by `Colorf( CM_HSV, h, s, v )`: the three arguments. -/
structure Colorf (K : Type) where
  hue : K
  saturation : K
  value : K
deriving DecidableEq, Repr

/-- Modelled from the spec: the framework class `CameraPersp` is not part of the source;
the data model lists its state as eye point, centre-of-interest point, field of view,
aspect ratio and lens shift, each written by the setter of the same name. -/
structure CameraPersp (K : Type) where
  eyePoint : Vec3f K
  centerOfInterestPoint : Vec3f K
  fov : K
  aspectRatio : K
  lensShift : Vec2f K
deriving DecidableEq, Repr

/-- The `Box` struct: phase offset, colour and position. -/
structure Box (K : Type) where
  offset : K
  color : Colorf K
  position : Vec3f K
deriving DecidableEq, Repr

/-- One recorded `gl::color` + `gl::drawCube( center, size )` pair. -/
structure Cube (K : Type) where
  color : Colorf K
  center : Vec3f K
  size : Vec3f K
deriving DecidableEq, Repr

/-- The members of `OneWorldMultipleWindowsApp`, plus the flag raised by `quit()`. -/
structure App (K : Type) where
  mCamera : CameraPersp K
  mShaderLoaded : Bool
  mBoxes : List (Box K)
  mTime : K
  quitRequested : Bool
deriving DecidableEq, Repr

/-- What one call of `draw()` hands to the renderer: the camera given to
`gl::setMatrices` and the cubes drawn, in order. -/
structure Frame (K : Type) where
  camera : CameraPersp K
  cubes : List (Cube K)
deriving DecidableEq, Repr

/-- Geometry of one window as read by `draw()`: `getWindow()->getPos()` and
`getWindow()->getSize()`, already converted to `Vec2f`. -/
structure Window (K : Type) where
  pos : Vec2f K
  size : Vec2f K
deriving DecidableEq, Repr

section Projection

variable {K : Type} [LinearOrderedField K]

/-- The line `Vec2f displayCenter = displaySize * 0.5f;`, exact reading. -/
def displayCenter (displaySize : Vec2f K) : Vec2f K := displaySize.scale 0.5

/-- The line `Vec2f windowCenter = windowPos + windowSize * 0.5f;`, exact reading. -/
def windowCenter (windowPos windowSize : Vec2f K) : Vec2f K :=
  windowPos.add (windowSize.scale 0.5)

/-- The line `float lensShiftX = 2.0f * (windowCenter.x - displayCenter.x) / windowSize.x;`,
exact reading; `lensShiftX32` is the binary32 reading. -/
def lensShiftX (displaySize windowPos windowSize : Vec2f K) : K :=
  2.0 * ((windowCenter windowPos windowSize).x - (displayCenter displaySize).x) / windowSize.x

/-- The line `float lensShiftY = 2.0f * (displayCenter.y - windowCenter.y) / windowSize.y;`,
exact reading; `lensShiftY32` is the binary32 reading. -/
def lensShiftY (displaySize windowPos windowSize : Vec2f K) : K :=
  2.0 * ((displayCenter displaySize).y - (windowCenter windowPos windowSize).y) / windowSize.y

/-- Modelled from the spec: the framework call `getWindowAspectRatio()` is not part of the
source; the spec gives `aspectRatio = S.width / S.height`.  Exact reading;
`getWindowAspectRatio32` is the binary32 reading. -/
def getWindowAspectRatio (windowSize : Vec2f K) : K := windowSize.x / windowSize.y

/-- The argument of `mCamera.setFov( 60.0f * windowSize.y / displaySize.y )`, exact reading;
`windowFov32` is the binary32 reading. -/
def windowFov (displaySize windowSize : Vec2f K) : K :=
  60.0 * windowSize.y / displaySize.y

/-- The three camera setters called by `draw()`, in source order, exact reading. -/
def setProjection (displaySize windowPos windowSize : Vec2f K) (cam : CameraPersp K) :
    CameraPersp K :=
  let cam1 := { cam with aspectRatio := getWindowAspectRatio windowSize }
  let cam2 := { cam1 with fov := windowFov displaySize windowSize }
  { cam2 with lensShift := ⟨lensShiftX displaySize windowPos windowSize,
                            lensShiftY displaySize windowPos windowSize⟩ }

end Projection

section Scene

variable {G K : Type} [LinearOrderedField K]

/-- The two operations of the global generator `Rand` used by the source, acting on an
explicit generator state: `Rand::randFloat()` and `Rand::randFloat( a, b )`. -/
structure RandOps (G K : Type) where
  randFloat : G → K × G
  randFloatRange : K → K → G → K × G

/-- The constructor `Box( float x, float z )`; members are initialised in declaration
order (`offset`, `color`, `position`), so the offset is drawn before the colour value. -/
def Box.new (R : RandOps G K) (x z : K) (g : G) : Box K × G :=
  let r1 := R.randFloatRange 0.0 10.0 g
  let r2 := R.randFloat r1.2
  (⟨r1.1, ⟨0.0, 0.0, r2.1⟩, ⟨x, 0.0, z⟩⟩, r2.2)

/-- The animated height computed by `Box::draw`:
`t = offset + time; height = 55.0f + 45.0f * sin( t )`. -/
def Box.height (sin : K → K) (b : Box K) (time : K) : K :=
  let t := b.offset + time
  55.0 + 45.0 * sin t

/-- The method `Box::draw( float time )`: the colour set and the cube drawn. -/
def Box.draw (sin : K → K) (b : Box K) (time : K) : Cube K :=
  let height := b.height sin time
  ⟨b.color, b.position.add ⟨0, 0.5 * height, 0⟩, ⟨10.0, height, 10.0⟩⟩

/-- The inner loop of `setup()`:
`for(int z=-50; z<=50; z+=10) mBoxes.push_back( make_shared<Box>( float(x), float(z) ) )`,
entered with the loop variable at `z`. -/
def setup.zLoop (R : RandOps G K) (x z : Int) (st : List (Box K) × G) : List (Box K) × G :=
  if z ≤ 50 then
    let r := Box.new R (x : K) (z : K) st.2
    setup.zLoop R x (z + 10) (st.1 ++ [r.1], r.2)
  else st
termination_by (51 - z).toNat
decreasing_by
  all_goals simp_wf
  all_goals omega

/-- The outer loop of `setup()`: `for(int x=-50; x<=50; x+=10)`, entered with the loop
variable at `x`. -/
def setup.xLoop (R : RandOps G K) (x : Int) (st : List (Box K) × G) : List (Box K) × G :=
  if x ≤ 50 then setup.xLoop R (x + 10) (setup.zLoop R x (-50) st) else st
termination_by (51 - x).toNat
decreasing_by
  all_goals simp_wf
  all_goals omega

/-- The method `setup()`.  `shaderLoads` says whether constructing the `GlslProg`
succeeded; when it throws, the handler calls `quit()`, which raises the quit request and
returns, and the box loops run in either case. -/
def setup (R : RandOps G K) (shaderLoads : Bool) (g : G) (s : App K) : App K × G :=
  let s1 := if shaderLoads then { s with mShaderLoaded := true }
            else { s with quitRequested := true }
  let r := setup.xLoop R (-50) (s1.mBoxes, g)
  ({ s1 with mBoxes := r.1 }, r.2)

/-- The elevation angle of `update()` with the constant `piConst` standing where the
source has the literal `3.14159265f`:
`theta = piConst * (0.25f + 0.2f * sin( phi * 0.9f ))`. -/
def orbitTheta (sin : K → K) (piConst phi : K) : K :=
  piConst * (0.25 + 0.2 * sin (phi * 0.9))

/-- The body of `update()` with the constant `piConst` standing where the source has the
literal `3.14159265f`. -/
def updateWith (sin cos : K → K) (piConst getElapsedSeconds : K) (s : App K) : App K :=
  let s1 := { s with mTime := getElapsedSeconds }
  let t := s1.mTime / 10.0
  let phi := t
  let theta := orbitTheta sin piConst phi
  let x := 150.0 * cos phi * cos theta
  let y := 150.0 * sin theta
  let z := 150.0 * sin phi * cos theta
  let cam1 := { s1.mCamera with eyePoint := ⟨x, y, z⟩ }
  let cam2 := { cam1 with centerOfInterestPoint := ⟨1, 50, 0⟩ }
  { s1 with mCamera := cam2 }

/-- The method `update()`, with the literal `3.14159265f` of the source. -/
def update (sin cos : K → K) (getElapsedSeconds : K) (s : App K) : App K :=
  updateWith sin cos 3.14159265 getElapsedSeconds s

/-- The method `draw()` for the window `w` on a display of size `displaySize`, exact
reading: the camera setters, then `gl::setMatrices( mCamera )` and one `Box::draw` per box.
The binary32 reading of the camera part is `drawCamera32`. -/
def draw (sin : K → K) (displaySize : Vec2f K) (w : Window K) (s : App K) :
    App K × Frame K :=
  let s1 := { s with mCamera := setProjection displaySize w.pos w.size s.mCamera }
  (s1, ⟨s1.mCamera, s1.mBoxes.map (fun box => box.draw sin s1.mTime)⟩)

/-- Modelled from the spec: the host's render loop is not part of the source; the spec
says it issues one `draw()` per open window, sequentially, after the frame's `update()`.
Returns the final state and the frames rendered, in window order. -/
def drawAll (sin : K → K) (displaySize : Vec2f K) :
    List (Window K) → App K → App K × List (Frame K)
  | [], s => (s, [])
  | w :: ws, s =>
    let r := draw sin displaySize w s
    let rest := drawAll sin displaySize ws r.1
    (rest.1, r.2 :: rest.2)

end Scene

section Guarded

variable {K : Type} [LinearOrderedField K]

/-- Division with the zero divisor made an explicit failure. -/
def checkedDiv (a b : K) : Option K := if b = 0 then none else some (a / b)

/-- The values `draw()` gives to the camera, as a record. -/
structure Projection (K : Type) where
  lensShiftX : K
  lensShiftY : K
  aspectRatio : K
  fov : K
deriving DecidableEq, Repr

/-- The camera arithmetic of `draw()` in source order (lens shift x, lens shift y, aspect
ratio, field of view) with every division guarded by `checkedDiv`. -/
def projectionChecked (displaySize windowPos windowSize : Vec2f K) : Option (Projection K) := do
  let lx ← checkedDiv
    (2.0 * ((windowCenter windowPos windowSize).x - (displayCenter displaySize).x)) windowSize.x
  let ly ← checkedDiv
    (2.0 * ((displayCenter displaySize).y - (windowCenter windowPos windowSize).y)) windowSize.y
  let ar ← checkedDiv windowSize.x windowSize.y
  let fv ← checkedDiv (60.0 * windowSize.y) displaySize.y
  pure ⟨lx, ly, ar, fv⟩

end Guarded

/-! ## The camera arithmetic of `draw()` in binary32

The definitions above read the `float` operations of the source as exact field
operations.  The definitions of this section evaluate the same lines the way the
program does: every `float` operation returns the exact result rounded to the nearest
binary32 value, ties to even (a platform that evaluates `float` expressions in binary32,
without extended intermediate precision or fused operations).  Values are the rationals
that the binary32 numbers denote; infinities and NaN are not represented, so the section
speaks about finite results only.
-/

/-- Number of binary digits of `n`, by halving at most `fuel` times. -/
def bitLength : Nat → Nat → Nat
  | 0, _ => 0
  | fuel + 1, n => if n = 0 then 0 else bitLength fuel (n / 2) + 1

/-- The exponent `e` with `2^e ≤ n / d < 2^(e+1)`, for `n, d > 0`. -/
def binExp (n d : Nat) : Int :=
  let e0 : Int := ((bitLength n n : Nat) : Int) - ((bitLength d d : Nat) : Int)
  if d * 2 ^ e0.toNat ≤ n * 2 ^ (-e0).toNat then e0 else e0 - 1

/-- Nearest natural number to `n / d`, ties to the even one (`d > 0`). -/
def divRoundEven (n d : Nat) : Nat :=
  let k := n / d
  let r := n % d
  if 2 * r < d then k
  else if d < 2 * r then k + 1
  else if k % 2 = 0 then k else k + 1

/-- Rounding of a rational to binary32: 24 significant bits, round to nearest, ties to
even, with the subnormal spacing `2^-149` below `2^-126`. -/
def roundF32 (q : ℚ) : ℚ :=
  if q = 0 then 0 else
    let n := q.num.natAbs
    let d := q.den
    let e := max (binExp n d) (-126)
    let s : Int := 23 - e
    let k := divRoundEven (n * 2 ^ s.toNat) (d * 2 ^ (-s).toNat)
    let a : ℚ := (k : ℚ) * 2 ^ (-s).toNat / 2 ^ s.toNat
    if q < 0 then -a else a

/-- Sum of two `float` values. -/
def F32.add (a b : ℚ) : ℚ := roundF32 (a + b)

/-- Difference of two `float` values. -/
def F32.sub (a b : ℚ) : ℚ := roundF32 (a - b)

/-- Product of two `float` values. -/
def F32.mul (a b : ℚ) : ℚ := roundF32 (a * b)

/-- Quotient of two `float` values (finite case, `b ≠ 0`). -/
def F32.div (a b : ℚ) : ℚ := roundF32 (a / b)

/-- Conversion of an `int` to `float`. -/
def F32.ofInt (n : Int) : ℚ := roundF32 (n : ℚ)

/-- Integer vector (`Vec2i`), the type the display and window geometry is reported in. -/
structure Vec2i where
  x : Int
  y : Int
deriving DecidableEq, Repr

/-- The conversion `Vec2f( Vec2i )` used for `displaySize`, `windowPos` and `windowSize`. -/
def Vec2i.toVec2f (v : Vec2i) : Vec2f ℚ := ⟨F32.ofInt v.x, F32.ofInt v.y⟩

/-- The line `Vec2f displayCenter = displaySize * 0.5f;` in binary32. -/
def displayCenter32 (displaySize : Vec2f ℚ) : Vec2f ℚ :=
  ⟨F32.mul displaySize.x 0.5, F32.mul displaySize.y 0.5⟩

/-- The line `Vec2f windowCenter = windowPos + windowSize * 0.5f;` in binary32. -/
def windowCenter32 (windowPos windowSize : Vec2f ℚ) : Vec2f ℚ :=
  ⟨F32.add windowPos.x (F32.mul windowSize.x 0.5),
   F32.add windowPos.y (F32.mul windowSize.y 0.5)⟩

/-- The line `float lensShiftX = 2.0f * (windowCenter.x - displayCenter.x) / windowSize.x;`
in binary32. -/
def lensShiftX32 (displaySize windowPos windowSize : Vec2f ℚ) : ℚ :=
  F32.div
    (F32.mul 2.0
      (F32.sub (windowCenter32 windowPos windowSize).x (displayCenter32 displaySize).x))
    windowSize.x

/-- The line `float lensShiftY = 2.0f * (displayCenter.y - windowCenter.y) / windowSize.y;`
in binary32. -/
def lensShiftY32 (displaySize windowPos windowSize : Vec2f ℚ) : ℚ :=
  F32.div
    (F32.mul 2.0
      (F32.sub (displayCenter32 displaySize).y (windowCenter32 windowPos windowSize).y))
    windowSize.y

/-- Modelled from the spec: the framework call `getWindowAspectRatio()` is not part of the
source; the spec gives `aspectRatio = S.width / S.height`, here a single `float`
division. -/
def getWindowAspectRatio32 (windowSize : Vec2f ℚ) : ℚ := F32.div windowSize.x windowSize.y

/-- The argument of `mCamera.setFov( 60.0f * windowSize.y / displaySize.y )` in binary32. -/
def windowFov32 (displaySize windowSize : Vec2f ℚ) : ℚ :=
  F32.div (F32.mul 60.0 windowSize.y) displaySize.y

/-- The camera part of `draw()` (from `displaySize` to `setLensShift`) in binary32, for a
display of integer size `displaySize` and a window at integer position `windowPos` of
integer size `windowSize`. -/
def drawCamera32 (displaySize windowPos windowSize : Vec2i) (s : App ℚ) : App ℚ :=
  let D := displaySize.toVec2f
  let P := windowPos.toVec2f
  let S := windowSize.toVec2f
  let cam1 := { s.mCamera with aspectRatio := getWindowAspectRatio32 S }
  let cam2 := { cam1 with fov := windowFov32 D S }
  let cam3 := { cam2 with lensShift := ⟨lensShiftX32 D P S, lensShiftY32 D P S⟩ }
  { s with mCamera := cam3 }

/-- The grid coordinates visited by each loop of `setup()`. -/
def gridCoords : List Int := [-50, -40, -30, -20, -10, 0, 10, 20, 30, 40, 50]

/-- A concrete application state over `ℚ` (no boxes, all numbers zero), used to evaluate
the definitions at explicit inputs. -/
def blankApp : App ℚ :=
  ⟨⟨⟨0, 0, 0⟩, ⟨0, 0, 0⟩, 0, 0, ⟨0, 0⟩⟩, false, [], 0, false⟩

/-- A small deterministic generator over `ℚ` with a counter as state, used to evaluate
`setup` at explicit inputs: the `n`-th raw value is `(n % 10) / 10`, in `[0, 1)`. -/
def counterRand : RandOps Nat ℚ where
  randFloat := fun n => (((n % 10 : Nat) : ℚ) / 10, n + 1)
  randFloatRange := fun a b n => (a + (b - a) * (((n % 10 : Nat) : ℚ) / 10), n + 1)

/-- The grid position `(x, 0, z)` for integer coordinates. -/
def gridPoint (K : Type) [LinearOrderedField K] (x z : Int) : Vec3f K := ⟨(x : K), 0, (z : K)⟩

/-- The 121 grid positions in the order in which the loops of `setup()` visit them. -/
def gridPositions (K : Type) [LinearOrderedField K] : List (Vec3f K) :=
  gridCoords.flatMap (fun x => gridCoords.map (fun z => gridPoint K x z))

/-! ## Projection: unfolding lemmas -/

section ProjectionLemmas

variable {K : Type} [LinearOrderedField K]

theorem lensShiftX_eq (D P S : Vec2f K) :
    lensShiftX D P S = 2 * (P.x + S.x / 2 - D.x / 2) / S.x := by
  simp only [lensShiftX, windowCenter, displayCenter, Vec2f.add, Vec2f.scale]
  norm_num
  ring

theorem lensShiftY_eq (D P S : Vec2f K) :
    lensShiftY D P S = 2 * (D.y / 2 - (P.y + S.y / 2)) / S.y := by
  simp only [lensShiftY, windowCenter, displayCenter, Vec2f.add, Vec2f.scale]
  norm_num
  ring

theorem windowFov_eq (D S : Vec2f K) : windowFov D S = 60 * S.y / D.y := by
  simp only [windowFov]
  norm_num

theorem draw_camera (sin : K → K) (D : Vec2f K) (w : Window K) (s : App K) :
    (draw sin D w s).1.mCamera =
      { s.mCamera with
        aspectRatio := getWindowAspectRatio w.size
        fov := windowFov D w.size
        lensShift := ⟨lensShiftX D w.pos w.size, lensShiftY D w.pos w.size⟩ } := rfl

theorem draw_frame_camera (sin : K → K) (D : Vec2f K) (w : Window K) (s : App K) :
    (draw sin D w s).2.camera = (draw sin D w s).1.mCamera := rfl

theorem checkedDiv_of_ne_zero (a b : K) (hb : b ≠ 0) : checkedDiv a b = some (a / b) := by
  simp [checkedDiv, hb]

theorem checkedDiv_zero (a : K) : checkedDiv a 0 = none := by
  simp [checkedDiv]

/-- With all three divisors non-zero the guarded computation succeeds and returns the
values of the unguarded source expressions. -/
theorem projectionChecked_of_ne_zero (D P S : Vec2f K) (hDy : D.y ≠ 0) (hSx : S.x ≠ 0)
    (hSy : S.y ≠ 0) :
    projectionChecked D P S
      = some ⟨lensShiftX D P S, lensShiftY D P S, getWindowAspectRatio S, windowFov D S⟩ := by
  simp only [projectionChecked, checkedDiv_of_ne_zero _ _ hDy, checkedDiv_of_ne_zero _ _ hSx,
    checkedDiv_of_ne_zero _ _ hSy, Option.bind_eq_bind, Option.some_bind, Option.pure_def]
  rfl

end ProjectionLemmas

/-! ## The projection in binary32 -/

section Binary32

theorem bitLength_zero (fuel : Nat) : bitLength fuel 0 = 0 := by
  cases fuel <;> simp [bitLength]

/-- With enough fuel, `bitLength` is the position of the leading binary digit. -/
theorem bitLength_spec (fuel n : Nat) (h : n ≤ fuel) :
    n < 2 ^ bitLength fuel n ∧ (0 < n → 2 ^ (bitLength fuel n - 1) ≤ n) := by
  induction fuel generalizing n with
  | zero =>
    have : n = 0 := by omega
    subst this
    simp [bitLength]
  | succ fuel ih =>
    by_cases hn : n = 0
    · subst hn
      simp [bitLength]
    · have hle : n / 2 ≤ fuel := by omega
      obtain ⟨h1, h2⟩ := ih (n / 2) hle
      simp only [bitLength, hn, if_false, Nat.add_sub_cancel]
      refine ⟨?_, fun _ => ?_⟩
      · rw [pow_succ]
        omega
      · by_cases hz : n / 2 = 0
        · rw [hz, bitLength_zero]
          simp
          omega
        · have hpos : 0 < n / 2 := Nat.pos_of_ne_zero hz
          have h3 := h2 hpos
          have hb : 1 ≤ bitLength fuel (n / 2) := by
            by_contra hc
            have : bitLength fuel (n / 2) = 0 := by omega
            rw [this] at h1
            simp at h1
            omega
          obtain ⟨b, hb2⟩ : ∃ b, bitLength fuel (n / 2) = b + 1 := ⟨_, (Nat.sub_add_cancel hb).symm⟩
          rw [hb2] at h3 ⊢
          simp only [Nat.add_sub_cancel] at h3
          rw [pow_succ]
          omega

theorem divRoundEven_one (m : Nat) : divRoundEven m 1 = m := by
  simp [divRoundEven, Nat.mod_one]

/-- Natural numbers below `2^24` are binary32 values: rounding leaves them unchanged. -/
theorem roundF32_natCast (n : Nat) (h : n < 2 ^ 24) : roundF32 (n : ℚ) = n := by
  by_cases hn : n = 0
  · subst hn
    simp [roundF32]
  · have hpos : 0 < n := Nat.pos_of_ne_zero hn
    obtain ⟨h1, h2⟩ := bitLength_spec n n le_rfl
    have h3 := h2 hpos
    have hL : 1 ≤ bitLength n n := by
      by_contra hc
      have : bitLength n n = 0 := by omega
      rw [this] at h1
      simp at h1
      omega
    have hL24 : bitLength n n ≤ 24 := by
      by_contra hc
      have : 2 ^ 24 ≤ 2 ^ (bitLength n n - 1) :=
        Nat.pow_le_pow_right (by norm_num) (by omega)
      omega
    have hb1 : bitLength 1 1 = 1 := by decide
    have hexp : binExp n 1 = ((bitLength n n - 1 : Nat) : Int) := by
      simp only [binExp, hb1]
      have e0 : ((bitLength n n : Nat) : Int) - ((1 : Nat) : Int)
          = ((bitLength n n - 1 : Nat) : Int) := by omega
      rw [e0]
      simp only [Int.toNat_ofNat]
      have : (-((bitLength n n - 1 : Nat) : Int)).toNat = 0 := by omega
      rw [this]
      simp [h3]
    have hq0 : ((n : ℚ) = 0) = False := by
      simp [hn]
    have hneg : ¬ ((n : ℚ) < 0) := by
      simp
    simp only [roundF32, hq0, if_false, hneg, Rat.num_natCast, Int.natAbs_ofNat,
      Rat.den_natCast, hexp]
    have hmax : max ((bitLength n n - 1 : Nat) : Int) (-126) = ((bitLength n n - 1 : Nat) : Int) := by
      omega
    rw [hmax]
    have hs : (23 : Int) - ((bitLength n n - 1 : Nat) : Int) = ((24 - bitLength n n : Nat) : Int) := by
      omega
    rw [hs]
    have hs2 : (-((24 - bitLength n n : Nat) : Int)).toNat = 0 := by omega
    simp only [Int.toNat_ofNat, hs2, pow_zero, mul_one, divRoundEven_one]
    push_cast
    field_simp

theorem drawCamera32_camera (D P S : Vec2i) (s : App ℚ) :
    (drawCamera32 D P S s).mCamera =
      { s.mCamera with
        aspectRatio := getWindowAspectRatio32 S.toVec2f
        fov := windowFov32 D.toVec2f S.toVec2f
        lensShift := ⟨lensShiftX32 D.toVec2f P.toVec2f S.toVec2f,
                      lensShiftY32 D.toVec2f P.toVec2f S.toVec2f⟩ } := rfl

/-- In binary32 a window as high as the display gets field of view exactly 60, as long as
`60 * height` is below `2^24`. -/
theorem windowFov32_full_height (E S : Vec2i) (hE : 0 < E.y) (hS : S.y = E.y)
    (hlt : 60 * E.y < 2 ^ 24) (P : Vec2i) (a : App ℚ) :
    (drawCamera32 E P S a).mCamera.fov = 60 := by
  obtain ⟨n, hn⟩ : ∃ n : Nat, E.y = (n : Int) := ⟨E.y.toNat, (Int.toNat_of_nonneg hE.le).symm⟩
  have hn0 : 0 < n := by omega
  have hn24 : 60 * n < 2 ^ 24 := by omega
  rw [drawCamera32_camera]
  simp only [windowFov32, Vec2i.toVec2f, F32.ofInt, F32.mul, F32.div, hS, hn, Int.cast_natCast]
  rw [roundF32_natCast n (by omega)]
  have h60 : (60.0 : ℚ) * (n : ℚ) = ((60 * n : Nat) : ℚ) := by
    push_cast
    norm_num
  rw [h60, roundF32_natCast (60 * n) hn24]
  have hq : (((60 * n : Nat) : ℚ)) / (n : ℚ) = ((60 : Nat) : ℚ) := by
    have : (n : ℚ) ≠ 0 := by exact_mod_cast hn0.ne'
    push_cast
    field_simp
  rw [hq, roundF32_natCast 60 (by norm_num)]
  norm_num

end Binary32

/-! ## Claims about the per-window projection -/

section ProjectionClaims

variable {K : Type} [LinearOrderedField K]

/-- C1, amended: windows tile one continuous view in exact arithmetic.  With the `float`
operations of `draw()` read as exact real arithmetic, for a display `D` with positive
width and height, windows `w1`, `w2` with positive sizes and any display point `q`, the
normalized window coordinate of `q` plus the lens shift set by `draw()`, rescaled by window
size over display size, equals `2*q.x/D.x - 1` (resp. `1 - 2*q.y/D.y`); hence both windows
assign the same display-normalized coordinate to `q`. -/
theorem C1_windows_tile_one_view (sin : K → K) (D q : Vec2f K) (w1 w2 : Window K)
    (s1 s2 : App K) (hDx : 0 < D.x) (hDy : 0 < D.y)
    (h1x : 0 < w1.size.x) (h1y : 0 < w1.size.y)
    (h2x : 0 < w2.size.x) (h2y : 0 < w2.size.y) :
    ((2 * (q.x - w1.pos.x) / w1.size.x - 1) + (draw sin D w1 s1).1.mCamera.lensShift.x)
        * w1.size.x / D.x = 2 * q.x / D.x - 1
    ∧ ((1 - 2 * (q.y - w1.pos.y) / w1.size.y) + (draw sin D w1 s1).1.mCamera.lensShift.y)
        * w1.size.y / D.y = 1 - 2 * q.y / D.y
    ∧ ((2 * (q.x - w1.pos.x) / w1.size.x - 1) + (draw sin D w1 s1).1.mCamera.lensShift.x)
        * w1.size.x / D.x
      = ((2 * (q.x - w2.pos.x) / w2.size.x - 1) + (draw sin D w2 s2).1.mCamera.lensShift.x)
        * w2.size.x / D.x
    ∧ ((1 - 2 * (q.y - w1.pos.y) / w1.size.y) + (draw sin D w1 s1).1.mCamera.lensShift.y)
        * w1.size.y / D.y
      = ((1 - 2 * (q.y - w2.pos.y) / w2.size.y) + (draw sin D w2 s2).1.mCamera.lensShift.y)
        * w2.size.y / D.y := by
  have hx : ∀ (w : Window K) (s : App K), 0 < w.size.x →
      ((2 * (q.x - w.pos.x) / w.size.x - 1) + (draw sin D w s).1.mCamera.lensShift.x)
        * w.size.x / D.x = 2 * q.x / D.x - 1 := by
    intro w s hw
    rw [draw_camera]
    simp only [lensShiftX_eq]
    field_simp
    ring
  have hy : ∀ (w : Window K) (s : App K), 0 < w.size.y →
      ((1 - 2 * (q.y - w.pos.y) / w.size.y) + (draw sin D w s).1.mCamera.lensShift.y)
        * w.size.y / D.y = 1 - 2 * q.y / D.y := by
    intro w s hw
    rw [draw_camera]
    simp only [lensShiftY_eq]
    field_simp
    ring
  exact ⟨hx w1 s1 h1x, hy w1 s1 h1y, (hx w1 s1 h1x).trans (hx w2 s2 h2x).symm,
    (hy w1 s1 h1y).trans (hy w2 s2 h2y).symm⟩

/-- Witness for C1: a 1920x1080 display, the point (100, 200), a 960x1080 window at
(1920, 0) and a 400x300 window at (10, 20). -/
theorem C1_windows_tile_one_view_witness :
    ((2 * ((100 : ℚ) - 1920) / 960 - 1)
        + (draw (fun t => t) ⟨1920, 1080⟩ ⟨⟨1920, 0⟩, ⟨960, 1080⟩⟩ blankApp).1.mCamera.lensShift.x)
        * 960 / 1920
      = ((2 * ((100 : ℚ) - 10) / 400 - 1)
        + (draw (fun t => t) ⟨1920, 1080⟩ ⟨⟨10, 20⟩, ⟨400, 300⟩⟩ blankApp).1.mCamera.lensShift.x)
        * 400 / 1920 :=
  (C1_windows_tile_one_view (fun t => t) (⟨1920, 1080⟩ : Vec2f ℚ) ⟨100, 200⟩
    ⟨⟨1920, 0⟩, ⟨960, 1080⟩⟩ ⟨⟨10, 20⟩, ⟨400, 300⟩⟩ blankApp blankApp
    (by norm_num) (by norm_num) (by norm_num) (by norm_num) (by norm_num)
    (by norm_num)).2.2.1

/-- C1 as stated fails for the binary32 value that `draw()` stores: on a 1920x1080
display, for the 400x300 window at (10, 20) and the display point (100, 200), the lens
shift `y` is `5172975/2097152` (the exact quotient `37/15` rounded), and with it
`(v + ly) * S.y / D.y` differs from `1 - 2*q.y/D.y`. -/
theorem C1_binary32_identity_fails :
    (0 : ℚ) < 1920 ∧ (0 : ℚ) < 1080 ∧ (0 : ℚ) < 400 ∧ (0 : ℚ) < 300
    ∧ (drawCamera32 ⟨1920, 1080⟩ ⟨10, 20⟩ ⟨400, 300⟩ blankApp).mCamera.lensShift.y
        = 5172975 / 2097152
    ∧ ((1 - 2 * ((200 : ℚ) - 20) / 300)
          + (drawCamera32 ⟨1920, 1080⟩ ⟨10, 20⟩ ⟨400, 300⟩ blankApp).mCamera.lensShift.y)
        * 300 / 1080 ≠ 1 - 2 * 200 / 1080 := by
  have h : (drawCamera32 ⟨1920, 1080⟩ ⟨10, 20⟩ ⟨400, 300⟩ blankApp).mCamera.lensShift.y
      = 5172975 / 2097152 := by decide!
  rw [h]
  norm_num

/-- C2 as stated fails: for D = (1920, 1080), P = (1920, 0), S = (960, 1080) the value
`2*((1920+480)-960)/960` that `draw()` computes for `lensShiftX` is not 2. -/
theorem C2_lensShiftX_ne_two :
    (draw (fun t => t) ⟨1920, 1080⟩ ⟨⟨1920, 0⟩, ⟨960, 1080⟩⟩ blankApp).1.mCamera.lensShift.x
        = 2 * ((1920 + 480) - 960) / 960
    ∧ (draw (fun t => t) ⟨1920, 1080⟩ ⟨⟨1920, 0⟩, ⟨960, 1080⟩⟩ blankApp).1.mCamera.lensShift.x
        ≠ 2.0 := by
  rw [draw_camera]
  simp only [lensShiftX_eq]
  norm_num

/-- C2, amended: for D = (1920, 1080), P = (1920, 0), S = (960, 1080) the `lensShiftX` that
`draw()` computes, `2*((1920+480)-960)/960`, equals 3. -/
theorem C2_lensShiftX_eq_three (sin : K → K) (s : App K) :
    (draw sin ⟨1920, 1080⟩ ⟨⟨1920, 0⟩, ⟨960, 1080⟩⟩ s).1.mCamera.lensShift.x
        = 2 * ((1920 + 480) - 960) / 960
    ∧ (draw sin ⟨1920, 1080⟩ ⟨⟨1920, 0⟩, ⟨960, 1080⟩⟩ s).1.mCamera.lensShift.x = 3.0 := by
  rw [draw_camera]
  simp only [lensShiftX_eq]
  norm_num

/-- C3: for a display of positive width and height, a window of the display's size
(`S = D`) centred on it (`P + S/2 = D/2`, so `P = (0,0)`) gets lens shift `(0, 0)` from
`draw()`: both `lensShiftX` and `lensShiftY` are 0, also when the divisions are guarded. -/
theorem C3_centered_full_window_no_shift (sin : K → K) (D : Vec2f K) (w : Window K)
    (s : App K) (hDx : 0 < D.x) (hDy : 0 < D.y) (hS : w.size = D)
    (hcx : w.pos.x + w.size.x / 2 = D.x / 2) (hcy : w.pos.y + w.size.y / 2 = D.y / 2) :
    w.pos = ⟨0, 0⟩
    ∧ lensShiftX D w.pos w.size = 0
    ∧ lensShiftY D w.pos w.size = 0
    ∧ (draw sin D w s).1.mCamera.lensShift = ⟨0, 0⟩
    ∧ (projectionChecked D w.pos w.size).map (fun p => (p.lensShiftX, p.lensShiftY))
        = some (0, 0) := by
  have hx : lensShiftX D w.pos w.size = 0 := by
    rw [lensShiftX_eq, hcx]; simp
  have hy : lensShiftY D w.pos w.size = 0 := by
    rw [lensShiftY_eq, hcy]; simp
  have hp : w.pos = ⟨0, 0⟩ := by
    have h1 : w.pos.x = 0 := by rw [hS] at hcx; linarith
    have h2 : w.pos.y = 0 := by rw [hS] at hcy; linarith
    cases hw : w.pos with
    | mk a b => rw [hw] at h1 h2; simp only at h1 h2; rw [h1, h2]
  refine ⟨hp, hx, hy, ?_, ?_⟩
  · rw [draw_camera]
    simp only [hx, hy]
  · have hSx : w.size.x ≠ 0 := by rw [hS]; exact ne_of_gt hDx
    have hSy : w.size.y ≠ 0 := by rw [hS]; exact ne_of_gt hDy
    rw [projectionChecked_of_ne_zero D w.pos w.size (ne_of_gt hDy) hSx hSy]
    simp only [Option.map_some', hx, hy]

/-- Witness for C3: a 1920x1080 display covered by a 1920x1080 window at (0, 0). -/
theorem C3_centered_full_window_no_shift_witness :
    (draw (fun t => t) (⟨1920, 1080⟩ : Vec2f ℚ) ⟨⟨0, 0⟩, ⟨1920, 1080⟩⟩
      blankApp).1.mCamera.lensShift = ⟨0, 0⟩ :=
  (C3_centered_full_window_no_shift (fun t => t) (⟨1920, 1080⟩ : Vec2f ℚ)
    ⟨⟨0, 0⟩, ⟨1920, 1080⟩⟩ blankApp (by norm_num) (by norm_num) rfl
    (by norm_num) (by norm_num)).2.2.2.1

/-- C4 as stated fails for the binary32 value that `draw()` stores: on a display of
height 1080 a window of height 300 gets field of view `8738133/524288`, not
`60*300/1080`; a window of height 900 (three times the ratio) gets exactly 50, which is
not three times that value; and for `S.height = D.height = 1118483` the value is not 60. -/
theorem C4_binary32_fov_not_exact :
    (drawCamera32 ⟨1920, 1080⟩ ⟨10, 20⟩ ⟨400, 300⟩ blankApp).mCamera.fov = 8738133 / 524288
    ∧ (drawCamera32 ⟨1920, 1080⟩ ⟨10, 20⟩ ⟨400, 300⟩ blankApp).mCamera.fov
        ≠ 60 * 300 / 1080
    ∧ (drawCamera32 ⟨1920, 1080⟩ ⟨10, 20⟩ ⟨400, 900⟩ blankApp).mCamera.fov
        ≠ 3 * (drawCamera32 ⟨1920, 1080⟩ ⟨10, 20⟩ ⟨400, 300⟩ blankApp).mCamera.fov
    ∧ (drawCamera32 ⟨1920, 1118483⟩ ⟨0, 0⟩ ⟨1920, 1118483⟩ blankApp).mCamera.fov ≠ 60 := by
  have h1 : (drawCamera32 ⟨1920, 1080⟩ ⟨10, 20⟩ ⟨400, 300⟩ blankApp).mCamera.fov
      = 8738133 / 524288 := by decide!
  have h2 : (drawCamera32 ⟨1920, 1080⟩ ⟨10, 20⟩ ⟨400, 900⟩ blankApp).mCamera.fov = 50 := by
    decide!
  have h3 : (drawCamera32 ⟨1920, 1118483⟩ ⟨0, 0⟩ ⟨1920, 1118483⟩ blankApp).mCamera.fov
      = 15728639 / 262144 := by decide!
  rw [h1, h2, h3]
  norm_num

/-- C4, amended: for a display of positive height, with the `float` operations of `draw()`
read as exact real arithmetic, the field of view set by `draw()` is
`60 * S.height / D.height`, i.e. `60` times the ratio `S.height / D.height`; it is linear
in that ratio (a window/display pair whose ratio is `k` times as large gets `k` times the
field of view), and it is exactly `60` when `S.height = D.height`.  In binary32 the field
of view that `draw()` stores is exactly `60` when `S.height = D.height > 0` and
`60 * S.height < 2^24`. -/
theorem C4_fov_linear_in_height_ratio (sin : K → K) (D D2 : Vec2f K) (w w2 : Window K)
    (s s2 : App K) (k : K) (E P S : Vec2i) (a : App ℚ) (hD : 0 < D.y) (_hD2 : 0 < D2.y) :
    (draw sin D w s).1.mCamera.fov = 60 * w.size.y / D.y
    ∧ (draw sin D w s).1.mCamera.fov = 60 * (w.size.y / D.y)
    ∧ (w2.size.y / D2.y = k * (w.size.y / D.y) →
        (draw sin D2 w2 s2).1.mCamera.fov = k * (draw sin D w s).1.mCamera.fov)
    ∧ (w.size.y = D.y → (draw sin D w s).1.mCamera.fov = 60)
    ∧ (0 < E.y → S.y = E.y → 60 * E.y < 2 ^ 24 → (drawCamera32 E P S a).mCamera.fov = 60) := by
  have hf : ∀ (E : Vec2f K) (v : Window K) (a : App K),
      (draw sin E v a).1.mCamera.fov = 60 * (v.size.y / E.y) := by
    intro E v a
    rw [draw_camera]
    simp only [windowFov_eq]
    ring
  refine ⟨?_, hf D w s, ?_, ?_, ?_⟩
  · rw [hf]; ring
  · intro hk
    rw [hf, hf, hk]; ring
  · intro hEq
    rw [hf, hEq, div_self (ne_of_gt hD)]; ring
  · intro hE hS hlt
    exact windowFov32_full_height E S hE hS hlt P a

/-- Witness for C4: display height 1080, a window of height 1080 and one of height 540
(ratio `1/2` of the first). -/
theorem C4_fov_linear_in_height_ratio_witness :
    (draw (fun t => t) (⟨1920, 1080⟩ : Vec2f ℚ) ⟨⟨0, 0⟩, ⟨1920, 1080⟩⟩ blankApp).1.mCamera.fov
        = 60
    ∧ (draw (fun t => t) (⟨1920, 1080⟩ : Vec2f ℚ) ⟨⟨0, 0⟩, ⟨960, 540⟩⟩ blankApp).1.mCamera.fov
        = 1 / 2 * (draw (fun t => t) (⟨1920, 1080⟩ : Vec2f ℚ) ⟨⟨0, 0⟩, ⟨1920, 1080⟩⟩
            blankApp).1.mCamera.fov
    ∧ (drawCamera32 ⟨1920, 1080⟩ ⟨0, 0⟩ ⟨1920, 1080⟩ blankApp).mCamera.fov = 60 :=
  have h := C4_fov_linear_in_height_ratio (fun t => t) (⟨1920, 1080⟩ : Vec2f ℚ)
    ⟨1920, 1080⟩ ⟨⟨0, 0⟩, ⟨1920, 1080⟩⟩ ⟨⟨0, 0⟩, ⟨960, 540⟩⟩ blankApp blankApp (1 / 2)
    ⟨1920, 1080⟩ ⟨0, 0⟩ ⟨1920, 1080⟩ blankApp (by norm_num) (by norm_num)
  ⟨h.2.2.2.1 rfl, h.2.2.1 (by norm_num), h.2.2.2.2 (by decide) rfl (by decide)⟩

/-- C5: for D = (1920, 1080), P = (0, 0), S = (1920, 1080) the projection that `draw()`
applies to the camera is aspect ratio `S.width / S.height` = 1.778 to three decimals,
field of view `60` and lens shift `(0, 0)`.  This holds for the binary32 values the program
stores (the aspect ratio is the `float` quotient `14913081/8388608`, within `0.0005` of
`1.778`) and for the exact reading (the aspect ratio `1920/1080` is within `0.0005` of
`1.778`). -/
theorem C5_full_window_projection (sin : ℚ → ℚ) (s : App ℚ) :
    (drawCamera32 ⟨1920, 1080⟩ ⟨0, 0⟩ ⟨1920, 1080⟩ s).mCamera.aspectRatio
        = roundF32 (1920 / 1080)
    ∧ |(drawCamera32 ⟨1920, 1080⟩ ⟨0, 0⟩ ⟨1920, 1080⟩ s).mCamera.aspectRatio - 1.778|
        < 0.0005
    ∧ (drawCamera32 ⟨1920, 1080⟩ ⟨0, 0⟩ ⟨1920, 1080⟩ s).mCamera.fov = 60
    ∧ (drawCamera32 ⟨1920, 1080⟩ ⟨0, 0⟩ ⟨1920, 1080⟩ s).mCamera.lensShift = ⟨0, 0⟩
    ∧ |(draw sin ⟨1920, 1080⟩ ⟨⟨0, 0⟩, ⟨1920, 1080⟩⟩ s).1.mCamera.aspectRatio - 1.778|
        < 0.0005
    ∧ (draw sin ⟨1920, 1080⟩ ⟨⟨0, 0⟩, ⟨1920, 1080⟩⟩ s).1.mCamera.fov = 60
    ∧ (draw sin ⟨1920, 1080⟩ ⟨⟨0, 0⟩, ⟨1920, 1080⟩⟩ s).1.mCamera.lensShift = ⟨0, 0⟩ := by
  have hr : roundF32 (1920 / 1080) = 14913081 / 8388608 := by decide!
  have ha : getWindowAspectRatio32 (Vec2i.toVec2f ⟨1920, 1080⟩) = 14913081 / 8388608 := by
    decide!
  have hf : windowFov32 (Vec2i.toVec2f ⟨1920, 1080⟩) (Vec2i.toVec2f ⟨1920, 1080⟩) = 60 := by
    decide!
  have hx : lensShiftX32 (Vec2i.toVec2f ⟨1920, 1080⟩) (Vec2i.toVec2f ⟨0, 0⟩)
      (Vec2i.toVec2f ⟨1920, 1080⟩) = 0 := by decide!
  have hy : lensShiftY32 (Vec2i.toVec2f ⟨1920, 1080⟩) (Vec2i.toVec2f ⟨0, 0⟩)
      (Vec2i.toVec2f ⟨1920, 1080⟩) = 0 := by decide!
  rw [drawCamera32_camera, draw_camera]
  simp only [ha, hf, hx, hy, hr, getWindowAspectRatio, windowFov_eq, lensShiftX_eq,
    lensShiftY_eq]
  refine ⟨trivial, ?_, trivial, trivial, ?_, by norm_num, by norm_num⟩
  · rw [abs_lt]
    constructor <;> norm_num
  · rw [abs_lt]
    constructor <;> norm_num

/-- C9 as stated fails: with a display of height 0 and a window of positive width and
height, the guarded camera arithmetic of `draw()` hits a zero divisor (in the field of
view, which divides by the display height). -/
theorem C9_zero_display_height_fails :
    (0 : ℚ) < (⟨960, 1080⟩ : Vec2f ℚ).x ∧ (0 : ℚ) < (⟨960, 1080⟩ : Vec2f ℚ).y
    ∧ projectionChecked (⟨1920, 0⟩ : Vec2f ℚ) ⟨0, 0⟩ ⟨960, 1080⟩ = none := by
  refine ⟨by norm_num, by norm_num, ?_⟩
  have h1 : ((960 : ℚ)) ≠ 0 := by norm_num
  have h2 : ((1080 : ℚ)) ≠ 0 := by norm_num
  simp only [projectionChecked, checkedDiv_of_ne_zero _ _ h1, checkedDiv_of_ne_zero _ _ h2,
    checkedDiv_zero, Option.bind_eq_bind, Option.some_bind, Option.none_bind]

/-- C9, amended: for every display size `D` with non-zero height, every window position
`P` and every window size `S` with positive width and height, no division performed for
`lensShiftX`, `lensShiftY`, the aspect ratio and the field of view has a zero divisor: the
guarded computation succeeds and returns the values `draw()` gives to the camera. -/
theorem C9_projection_infallible (sin : K → K) (D : Vec2f K) (w : Window K) (s : App K)
    (hDy : D.y ≠ 0) (hSx : 0 < w.size.x) (hSy : 0 < w.size.y) :
    projectionChecked D w.pos w.size ≠ none
    ∧ projectionChecked D w.pos w.size
        = some ⟨(draw sin D w s).1.mCamera.lensShift.x, (draw sin D w s).1.mCamera.lensShift.y,
                (draw sin D w s).1.mCamera.aspectRatio, (draw sin D w s).1.mCamera.fov⟩ := by
  have h := projectionChecked_of_ne_zero D w.pos w.size hDy (ne_of_gt hSx) (ne_of_gt hSy)
  refine ⟨?_, ?_⟩
  · rw [h]; exact Option.some_ne_none _
  · rw [h, draw_camera]

/-- Witness for C9: a 1920x1080 display and a 400x300 window at (10, 20). -/
theorem C9_projection_infallible_witness :
    projectionChecked (⟨1920, 1080⟩ : Vec2f ℚ) ⟨10, 20⟩ ⟨400, 300⟩ ≠ none :=
  (C9_projection_infallible (fun t => t) (⟨1920, 1080⟩ : Vec2f ℚ) ⟨⟨10, 20⟩, ⟨400, 300⟩⟩
    blankApp (by norm_num) (by norm_num) (by norm_num)).1

end ProjectionClaims

/-! ## The box scene -/

section SceneLemmas

variable {G K : Type} [LinearOrderedField K]

theorem Box.new_position (R : RandOps G K) (x z : Int) (g : G) :
    (Box.new R (x : K) (z : K) g).1.position = gridPoint K x z := by
  simp only [Box.new, gridPoint]
  norm_num

theorem zLoop_step (R : RandOps G K) (x z z2 : Int) (st : List (Box K) × G) (h : z ≤ 50)
    (h2 : z + 10 = z2) :
    setup.zLoop R x z st
      = setup.zLoop R x z2
          (st.1 ++ [(Box.new R (x : K) (z : K) st.2).1], (Box.new R (x : K) (z : K) st.2).2) := by
  subst h2
  conv_lhs => rw [setup.zLoop]
  rw [if_pos h]

theorem zLoop_done (R : RandOps G K) (x z : Int) (st : List (Box K) × G) (h : 50 < z) :
    setup.zLoop R x z st = st := by
  rw [setup.zLoop, if_neg (not_le.mpr h)]

theorem xLoop_step (R : RandOps G K) (x x2 : Int) (st : List (Box K) × G) (h : x ≤ 50)
    (h2 : x + 10 = x2) :
    setup.xLoop R x st = setup.xLoop R x2 (setup.zLoop R x (-50) st) := by
  subst h2
  conv_lhs => rw [setup.xLoop]
  rw [if_pos h]

theorem xLoop_done (R : RandOps G K) (x : Int) (st : List (Box K) × G) (h : 50 < x) :
    setup.xLoop R x st = st := by
  rw [setup.xLoop, if_neg (not_le.mpr h)]

/-- One full run of the inner loop appends eleven boxes, at `(x, 0, -50)` … `(x, 0, 50)`. -/
theorem zLoop_positions (R : RandOps G K) (x : Int) (st : List (Box K) × G) :
    (setup.zLoop R x (-50) st).1.map Box.position
      = st.1.map Box.position ++ gridCoords.map (fun z => gridPoint K x z) := by
  rw [zLoop_step R x (-50) (-40) _ (by norm_num) (by norm_num),
    zLoop_step R x (-40) (-30) _ (by norm_num) (by norm_num),
    zLoop_step R x (-30) (-20) _ (by norm_num) (by norm_num),
    zLoop_step R x (-20) (-10) _ (by norm_num) (by norm_num),
    zLoop_step R x (-10) 0 _ (by norm_num) (by norm_num),
    zLoop_step R x 0 10 _ (by norm_num) (by norm_num),
    zLoop_step R x 10 20 _ (by norm_num) (by norm_num),
    zLoop_step R x 20 30 _ (by norm_num) (by norm_num),
    zLoop_step R x 30 40 _ (by norm_num) (by norm_num),
    zLoop_step R x 40 50 _ (by norm_num) (by norm_num),
    zLoop_step R x 50 60 _ (by norm_num) (by norm_num),
    zLoop_done R x 60 _ (by norm_num)]
  simp only [List.map_append, List.map_cons, List.map_nil, Box.new_position, gridCoords,
    List.append_assoc, List.cons_append, List.nil_append]

/-- One full run of the outer loop appends the 121 grid boxes in loop order. -/
theorem xLoop_positions (R : RandOps G K) (st : List (Box K) × G) :
    (setup.xLoop R (-50) st).1.map Box.position
      = st.1.map Box.position ++ gridPositions K := by
  rw [xLoop_step R (-50) (-40) _ (by norm_num) (by norm_num),
    xLoop_step R (-40) (-30) _ (by norm_num) (by norm_num),
    xLoop_step R (-30) (-20) _ (by norm_num) (by norm_num),
    xLoop_step R (-20) (-10) _ (by norm_num) (by norm_num),
    xLoop_step R (-10) 0 _ (by norm_num) (by norm_num),
    xLoop_step R 0 10 _ (by norm_num) (by norm_num),
    xLoop_step R 10 20 _ (by norm_num) (by norm_num),
    xLoop_step R 20 30 _ (by norm_num) (by norm_num),
    xLoop_step R 30 40 _ (by norm_num) (by norm_num),
    xLoop_step R 40 50 _ (by norm_num) (by norm_num),
    xLoop_step R 50 60 _ (by norm_num) (by norm_num),
    xLoop_done R 60 _ (by norm_num)]
  simp only [zLoop_positions, List.append_assoc]
  simp only [gridPositions, gridCoords, List.flatMap_cons, List.flatMap_nil, List.append_nil,
    List.map_cons, List.map_nil, List.append_assoc, List.cons_append, List.nil_append]

theorem setup_positions (R : RandOps G K) (shaderLoads : Bool) (g : G) (s : App K) :
    (setup R shaderLoads g s).1.mBoxes.map Box.position
      = s.mBoxes.map Box.position ++ gridPositions K := by
  cases shaderLoads <;> simp only [setup, xLoop_positions] <;> rfl

theorem gridPoint_injective (K : Type) [LinearOrderedField K] :
    Function.Injective (fun p : Int × Int => gridPoint K p.1 p.2) := by
  rintro ⟨a, b⟩ ⟨c, d⟩ h
  simp only [gridPoint, Vec3f.mk.injEq, Int.cast_inj, true_and] at h
  exact Prod.ext h.1 h.2

theorem gridPositions_eq_map (K : Type) [LinearOrderedField K] :
    gridPositions K
      = (gridCoords.flatMap (fun x => gridCoords.map (fun z => (x, z)))).map
          (fun p : Int × Int => gridPoint K p.1 p.2) := by
  simp only [gridPositions, gridCoords, List.flatMap_cons, List.flatMap_nil, List.append_nil,
    List.map_cons, List.map_nil, List.map_append, List.cons_append, List.nil_append]

theorem gridPositions_length (K : Type) [LinearOrderedField K] :
    (gridPositions K).length = 121 := by
  rw [gridPositions_eq_map, List.length_map]
  decide

theorem gridPositions_nodup (K : Type) [LinearOrderedField K] : (gridPositions K).Nodup := by
  rw [gridPositions_eq_map]
  exact List.Nodup.map (gridPoint_injective K) (by decide)

theorem mem_gridPositions (K : Type) [LinearOrderedField K] (p : Vec3f K) :
    p ∈ gridPositions K ↔ ∃ x ∈ gridCoords, ∃ z ∈ gridCoords, p = gridPoint K x z := by
  simp only [gridPositions, List.mem_flatMap, List.mem_map]
  constructor
  · rintro ⟨x, hx, z, hz, rfl⟩
    exact ⟨x, hx, z, hz, rfl⟩
  · rintro ⟨x, hx, z, hz, rfl⟩
    exact ⟨x, hx, z, hz, rfl⟩

theorem draw_state (sin : K → K) (D : Vec2f K) (w : Window K) (s : App K) :
    (draw sin D w s).1
      = { s with mCamera := { s.mCamera with
            aspectRatio := getWindowAspectRatio w.size
            fov := windowFov D w.size
            lensShift := ⟨lensShiftX D w.pos w.size, lensShiftY D w.pos w.size⟩ } } := rfl

/-- A sequence of `draw()` calls keeps eye point, centre of interest, time and boxes, and
every frame it renders uses the eye point and centre of interest of the starting state. -/
theorem drawAll_preserves (sin : K → K) (D : Vec2f K) (ws : List (Window K)) (s : App K) :
    (drawAll sin D ws s).1.mCamera.eyePoint = s.mCamera.eyePoint
    ∧ (drawAll sin D ws s).1.mCamera.centerOfInterestPoint = s.mCamera.centerOfInterestPoint
    ∧ (drawAll sin D ws s).1.mTime = s.mTime
    ∧ (drawAll sin D ws s).1.mBoxes = s.mBoxes
    ∧ (drawAll sin D ws s).2.length = ws.length
    ∧ ∀ f ∈ (drawAll sin D ws s).2,
        f.camera.eyePoint = s.mCamera.eyePoint
        ∧ f.camera.centerOfInterestPoint = s.mCamera.centerOfInterestPoint := by
  induction ws generalizing s with
  | nil => simp [drawAll]
  | cons w ws ih =>
    obtain ⟨h1, h2, h3, h4, h5, h6⟩ := ih (draw sin D w s).1
    simp only [drawAll, List.length_cons, List.mem_cons, forall_eq_or_imp]
    refine ⟨h1.trans rfl, h2.trans rfl, h3.trans rfl, h4.trans rfl, by rw [h5], ⟨rfl, rfl⟩, ?_⟩
    intro f hf
    exact ⟨(h6 f hf).1.trans rfl, (h6 f hf).2.trans rfl⟩

end SceneLemmas

/-! ## Claims about the scene and the frame -/

section SceneClaims

variable {G K : Type} [LinearOrderedField K]

/-- C6: for every box (any phase offset) and every time, over the reals, the height
`55 + 45*sin(offset + t)` computed by `Box::draw` lies in `[10, 100]`; in particular the
drawn cube, whose vertical extent is that height, never has zero or negative height. -/
theorem C6_box_height_bounds (b : Box ℝ) (time : ℝ) :
    b.height Real.sin time = 55 + 45 * Real.sin (b.offset + time)
    ∧ 10 ≤ b.height Real.sin time
    ∧ b.height Real.sin time ≤ 100
    ∧ (b.draw Real.sin time).size.y = b.height Real.sin time
    ∧ 0 < (b.draw Real.sin time).size.y := by
  have h1 := Real.neg_one_le_sin (b.offset + time)
  have h2 := Real.sin_le_one (b.offset + time)
  have h : b.height Real.sin time = 55 + 45 * Real.sin (b.offset + time) := by
    simp only [Box.height]
    norm_num
  have hd : (b.draw Real.sin time).size.y = b.height Real.sin time := rfl
  refine ⟨h, ?_, ?_, hd, ?_⟩
  · rw [h]; linarith
  · rw [h]; linarith
  · rw [hd, h]; linarith

/-- C7: starting from the empty box list, `setup()` leaves exactly 121 boxes whose
positions are exactly the grid `{-50, -40, …, 50} × {-50, -40, …, 50}` at `y = 0`, each
grid point occurring exactly once, whether or not the shader load failed. -/
theorem C7_setup_builds_grid (R : RandOps G K) (shaderLoads : Bool) (g : G) (s : App K)
    (h : s.mBoxes = []) :
    (setup R shaderLoads g s).1.mBoxes.length = 121
    ∧ (setup R shaderLoads g s).1.mBoxes.map Box.position = gridPositions K
    ∧ ((setup R shaderLoads g s).1.mBoxes.map Box.position).Nodup
    ∧ (∀ b ∈ (setup R shaderLoads g s).1.mBoxes, b.position.y = 0)
    ∧ (∀ b ∈ (setup R shaderLoads g s).1.mBoxes,
        ∃ x ∈ gridCoords, ∃ z ∈ gridCoords, b.position = ⟨(x : K), 0, (z : K)⟩)
    ∧ (∀ x ∈ gridCoords, ∀ z ∈ gridCoords,
        ((setup R shaderLoads g s).1.mBoxes.map Box.position).count ⟨(x : K), 0, (z : K)⟩
          = 1) := by
  have hp : (setup R shaderLoads g s).1.mBoxes.map Box.position = gridPositions K := by
    rw [setup_positions, h, List.map_nil, List.nil_append]
  have hmem : ∀ b ∈ (setup R shaderLoads g s).1.mBoxes,
      ∃ x ∈ gridCoords, ∃ z ∈ gridCoords, b.position = ⟨(x : K), 0, (z : K)⟩ := by
    intro b hb
    have : b.position ∈ gridPositions K := by
      rw [← hp]; exact List.mem_map_of_mem _ hb
    exact (mem_gridPositions K _).mp this
  refine ⟨?_, hp, ?_, ?_, hmem, ?_⟩
  · rw [← List.length_map _ Box.position, hp, gridPositions_length]
  · rw [hp]; exact gridPositions_nodup K
  · intro b hb
    obtain ⟨x, _, z, _, hxz⟩ := hmem b hb
    rw [hxz]
  · intro x hx z hz
    rw [hp]
    exact List.count_eq_one_of_mem (gridPositions_nodup K)
      ((mem_gridPositions K _).mpr ⟨x, hx, z, hz, rfl⟩)

/-- Witness for C7: `setup()` run on the blank state with the counter generator, with the
shader load failing. -/
theorem C7_setup_builds_grid_witness :
    (setup counterRand false 0 blankApp).1.mBoxes.length = 121 :=
  (C7_setup_builds_grid counterRand false 0 blankApp rfl).1

/-- C8: `draw()` for any window changes only the camera's field of view, aspect ratio and
lens shift: eye point, centre of interest, stored time and the box list are unchanged.
Hence in any sequence of `draw()` calls following one `update()`, every window is rendered
with the eye point and centre of interest that `update()` set. -/
theorem C8_draw_changes_only_projection (sin cos : K → K) (D : Vec2f K) (w : Window K)
    (ws : List (Window K)) (elapsed : K) (s : App K) :
    (draw sin D w s).1
      = { s with mCamera := { s.mCamera with
            aspectRatio := (draw sin D w s).1.mCamera.aspectRatio
            fov := (draw sin D w s).1.mCamera.fov
            lensShift := (draw sin D w s).1.mCamera.lensShift } }
    ∧ (draw sin D w s).1.mCamera.eyePoint = s.mCamera.eyePoint
    ∧ (draw sin D w s).1.mCamera.centerOfInterestPoint = s.mCamera.centerOfInterestPoint
    ∧ (draw sin D w s).1.mTime = s.mTime
    ∧ (draw sin D w s).1.mBoxes = s.mBoxes
    ∧ (drawAll sin D ws (update sin cos elapsed s)).2.length = ws.length
    ∧ (∀ f ∈ (drawAll sin D ws (update sin cos elapsed s)).2,
        f.camera.eyePoint = (update sin cos elapsed s).mCamera.eyePoint
        ∧ f.camera.centerOfInterestPoint
            = (update sin cos elapsed s).mCamera.centerOfInterestPoint) := by
  have h := drawAll_preserves sin D ws (update sin cos elapsed s)
  exact ⟨rfl, rfl, rfl, rfl, rfl, h.2.2.2.2.1, h.2.2.2.2.2⟩

end SceneClaims

/-! ## The camera orbit -/

section Orbit

theorem updateWith_eyePoint {K : Type} [LinearOrderedField K] (sin cos : K → K)
    (c elapsed : K) (s : App K) :
    (updateWith sin cos c elapsed s).mCamera.eyePoint
      = ⟨150 * cos (elapsed / 10) * cos (orbitTheta sin c (elapsed / 10)),
         150 * sin (orbitTheta sin c (elapsed / 10)),
         150 * sin (elapsed / 10) * cos (orbitTheta sin c (elapsed / 10))⟩ := by
  simp only [updateWith]
  norm_num

/-- The elevation angle stays between `0.05*c` and `0.45*c` for a positive constant `c`. -/
theorem orbitTheta_bounds (c phi : ℝ) (hc : 0 < c) :
    0.05 * c ≤ orbitTheta Real.sin c phi ∧ orbitTheta Real.sin c phi ≤ 0.45 * c := by
  have h1 := Real.neg_one_le_sin (phi * 0.9)
  have h2 := Real.sin_le_one (phi * 0.9)
  simp only [orbitTheta]
  constructor
  · nlinarith
  · nlinarith

/-- The eye point set by the orbit lies on the sphere of radius 150, whatever the constant. -/
theorem eye_on_sphere (c elapsed : ℝ) (s : App ℝ) :
    (updateWith Real.sin Real.cos c elapsed s).mCamera.eyePoint.x ^ 2
      + (updateWith Real.sin Real.cos c elapsed s).mCamera.eyePoint.y ^ 2
      + (updateWith Real.sin Real.cos c elapsed s).mCamera.eyePoint.z ^ 2 = 150 ^ 2 := by
  rw [updateWith_eyePoint]
  simp only
  have h1 := Real.sin_sq_add_cos_sq (elapsed / 10)
  have h2 := Real.sin_sq_add_cos_sq (orbitTheta Real.sin c (elapsed / 10))
  linear_combination
    150 ^ 2 * Real.cos (orbitTheta Real.sin c (elapsed / 10)) ^ 2 * h1 + 150 ^ 2 * h2

/-- The eye point is strictly above the ground plane when `0 < c` and `0.45 * c < π`. -/
theorem eye_above_ground (c elapsed : ℝ) (s : App ℝ) (hc : 0 < c)
    (hlt : 0.45 * c < Real.pi) :
    0 < (updateWith Real.sin Real.cos c elapsed s).mCamera.eyePoint.y := by
  rw [updateWith_eyePoint]
  simp only
  obtain ⟨hlo, hhi⟩ := orbitTheta_bounds c (elapsed / 10) hc
  have hpos : 0 < Real.sin (orbitTheta Real.sin c (elapsed / 10)) :=
    Real.sin_pos_of_pos_of_lt_pi (by nlinarith) (by linarith)
  linarith

/-- C10: for every elapsed time, over the reals and with `π` in place of the literal
`3.14159265`, the elevation `theta = π*(0.25 + 0.2*sin(0.9*phi))` lies in
`[0.05*π, 0.45*π]` and the eye point set by `update()` lies on the upper half of the sphere
of radius 150 about the origin: `x^2 + y^2 + z^2 = 150^2` and `y > 0`.  The same two facts
hold for `update()` with the literal itself. -/
theorem C10_eye_on_upper_hemisphere (elapsed : ℝ) (s : App ℝ) :
    (0.05 * Real.pi ≤ orbitTheta Real.sin Real.pi (elapsed / 10)
      ∧ orbitTheta Real.sin Real.pi (elapsed / 10) ≤ 0.45 * Real.pi)
    ∧ (updateWith Real.sin Real.cos Real.pi elapsed s).mCamera.eyePoint.y
        = 150 * Real.sin (orbitTheta Real.sin Real.pi (elapsed / 10))
    ∧ (updateWith Real.sin Real.cos Real.pi elapsed s).mCamera.eyePoint.x ^ 2
        + (updateWith Real.sin Real.cos Real.pi elapsed s).mCamera.eyePoint.y ^ 2
        + (updateWith Real.sin Real.cos Real.pi elapsed s).mCamera.eyePoint.z ^ 2 = 150 ^ 2
    ∧ 0 < (updateWith Real.sin Real.cos Real.pi elapsed s).mCamera.eyePoint.y
    ∧ (update Real.sin Real.cos elapsed s).mCamera.eyePoint.x ^ 2
        + (update Real.sin Real.cos elapsed s).mCamera.eyePoint.y ^ 2
        + (update Real.sin Real.cos elapsed s).mCamera.eyePoint.z ^ 2 = 150 ^ 2
    ∧ 0 < (update Real.sin Real.cos elapsed s).mCamera.eyePoint.y := by
  have hpi := Real.pi_gt_three
  refine ⟨orbitTheta_bounds Real.pi (elapsed / 10) Real.pi_pos, ?_, eye_on_sphere _ _ _,
    eye_above_ground _ _ _ Real.pi_pos (by nlinarith), eye_on_sphere _ _ _,
    eye_above_ground _ _ _ (by norm_num) (by norm_num; linarith)⟩
  rw [updateWith_eyePoint]

end Orbit


end OneWorld
